import Mathlib

/-!
Shallow embedding of the `rargsxd` argument-parsing library
(`src/argument.rs` and `src/parser.rs`; `src/lib.rs` is an earlier
self-contained draft of the same code and is superseded where the two differ).

Conventions of the embedding:
* The `HashMap<String, Arg>` registry is an association list
  `List (String × Arg)`; `findArg` is keyed lookup, `updateFirst` is the
  keyed in-place mutation performed through `get_mut`.  The iteration order
  of `values_mut` (unspecified for the hash map) is the list order.
* `process::exit(code)` becomes the `StepRes.exited code st` result;
  each `println!`/`eprintln!` appends one string to the `out`/`err`
  line lists of the parse state.
* `Arg::new` uses `.chars().nth(0).unwrap()`, which panics on the empty
  string; the embedding returns `Option Arg` with `none` for the panic.
-/

namespace Rargs

inductive WordType where
  | Boolean : Bool → WordType
  | String_ : String → WordType
  deriving DecidableEq

inductive ArgType where
  | Unknown : ArgType
  | Flag : Bool → ArgType
  | Option_ : String → ArgType
  | Word : WordType → ArgType
  deriving DecidableEq

structure Arg where
  name : String
  short : Char
  help : String
  typ : ArgType
  required : Bool
  set : Bool
  deriving DecidableEq

/-- `Arg::new` (src/argument.rs): takes the first character of the name via
`unwrap`, so the empty string panics (`none`). -/
def Arg.new (namee : String) : Option Arg :=
  match namee.toList with
  | [] => none
  | c :: _ =>
    some { name := namee, short := c, help := "", typ := ArgType.Unknown,
           required := false, set := false }

structure ArgParser where
  name : String
  author : String
  version : String
  copyright : String
  info : String
  usage : String
  args : List (String × Arg)
  require_args : Bool
  deriving DecidableEq

/-- Keyed lookup in the registry (`self.args.get(name)`). -/
def findArg : List (String × Arg) → String → Option Arg
  | [], _ => none
  | (k, a) :: rest, key => if k = key then some a else findArg rest key

/-- Mutation through `self.args.get_mut(key)`: rewrite the entry with that key. -/
def updateFirst (f : Arg → Arg) : List (String × Arg) → String → List (String × Arg)
  | [], _ => []
  | (k, a) :: rest, key =>
    if k = key then (k, f a) :: rest else (k, a) :: updateFirst f rest key

def isFlagTyp : ArgType → Bool
  | ArgType.Flag _ => true
  | _ => false

def isOptionTyp : ArgType → Bool
  | ArgType.Option_ _ => true
  | _ => false

def isWordTyp : ArgType → Bool
  | ArgType.Word _ => true
  | _ => false

def dashLine (a : Arg) : String :=
  "\t-" ++ a.short.toString ++ ", --" ++ a.name ++ "\t" ++ a.help

def wordLine (a : Arg) : String :=
  "\t" ++ a.name ++ "\t" ++ a.help

def sectionLines (hdr : String) (line : Arg → String) (l : List Arg) : List String :=
  if l.isEmpty then [] else hdr :: l.map line

/-- `ArgParser::print_help`: the stdout lines it produces, one list entry per
`println!`. -/
def print_help (p : ArgParser) : List String :=
  [p.name ++ " " ++ p.version ++ "\n" ++ p.author ++ "\n" ++ p.info ++ "\n" ++ p.copyright,
   "\nUsage:\n\t" ++ p.usage]
  ++ sectionLines "\nFlags:" dashLine ((p.args.map Prod.snd).filter (fun a => isFlagTyp a.typ))
  ++ sectionLines "\nOptions:" dashLine ((p.args.map Prod.snd).filter (fun a => isOptionTyp a.typ))
  ++ sectionLines "\nWords:" wordLine ((p.args.map Prod.snd).filter (fun a => isWordTyp a.typ))

/-- Parse-time state: the parser plus the stdout / stderr lines emitted so far. -/
structure PState where
  parser : ArgParser
  out : List String
  err : List String
  deriving DecidableEq

/-- Result of a parsing step / of `parse_vec`: either control returns with a
state, or the process terminated with an exit code (and the state at exit). -/
inductive StepRes where
  | ok : PState → StepRes
  | exited : Nat → PState → StepRes
  deriving DecidableEq

def help_exit (s : PState) : StepRes :=
  StepRes.exited 1 { s with out := s.out ++ print_help s.parser }

def version_exit (s : PState) : StepRes :=
  StepRes.exited 1 { s with out := s.out ++ [s.parser.name ++ " " ++ s.parser.version] }

def unexpectedMsg (tok : String) : String :=
  "Unexpected argument: \"" ++ tok ++ "\""

/-- `ArgParser::unexpected`: `eprintln!` then `help_exit`. -/
def unexpected (s : PState) (tok : String) : StepRes :=
  StepRes.exited 1 { s with err := s.err ++ [unexpectedMsg tok],
                            out := s.out ++ print_help s.parser }

/-- `starts_with('-')`. -/
def startsDash (t : String) : Bool :=
  match t.toList with
  | c :: _ => c = '-'
  | [] => false

/-- `strip_prefix("--")`. -/
def stripDashDash (t : String) : Option String :=
  match t.toList with
  | c1 :: c2 :: rest => if c1 = '-' ∧ c2 = '-' then some (String.mk rest) else none
  | _ => none

/-- `strip_prefix('-')`. -/
def stripDash (t : String) : Option String :=
  match t.toList with
  | c :: rest => if c = '-' then some (String.mk rest) else none
  | [] => none

/-- Outcome of scanning the registry for one short character: either the
updated registry, or an exit (registry at exit, `println!`-ed name, offending
following token). -/
inductive ShortRes where
  | cont : List (String × Arg) → ShortRes
  | ex : List (String × Arg) → String → String → ShortRes
  deriving DecidableEq

def shortCons (e : String × Arg) : ShortRes → ShortRes
  | ShortRes.cont l => ShortRes.cont (e :: l)
  | ShortRes.ex l nm tok => ShortRes.ex (e :: l) nm tok

/-- The `for arg in self.args.values_mut()` scan for one cluster character
(src/parser.rs lines 86-110). -/
def applyShort (ch : Char) (next : Option String) : List (String × Arg) → ShortRes
  | [] => ShortRes.cont []
  | (k, a) :: rest =>
    if a.short = ch then
      match a.typ with
      | ArgType.Flag b =>
        shortCons (k, { a with typ := ArgType.Flag (!b), set := true }) (applyShort ch next rest)
      | ArgType.Option_ _ =>
        match next with
        | some nxt =>
          if startsDash nxt then ShortRes.ex ((k, a) :: rest) a.name nxt
          else shortCons (k, { a with typ := ArgType.Option_ nxt, set := true })
                 (applyShort ch next rest)
        | none => shortCons (k, a) (applyShort ch next rest)
      | _ => shortCons (k, a) (applyShort ch next rest)
    else shortCons (k, a) (applyShort ch next rest)

def setEntries (s : PState) (entries : List (String × Arg)) : PState :=
  { s with parser := { s.parser with args := entries } }

/-- One character of a short cluster: `-h`/`-v` exit, otherwise scan shorts. -/
def short_char (next : Option String) (ch : Char) (s : PState) : StepRes :=
  if ch = 'h' then help_exit s
  else if ch = 'v' then version_exit s
  else
    match applyShort ch next s.parser.args with
    | ShortRes.cont entries => StepRes.ok (setEntries s entries)
    | ShortRes.ex entries nm tok =>
      let s' := setEntries s entries
      StepRes.exited 1 { s' with out := s'.out ++ [nm] ++ print_help s'.parser,
                                 err := s'.err ++ [unexpectedMsg tok] }

/-- `arg.chars().for_each(...)` over the cluster characters. -/
def short_cluster (next : Option String) : List Char → PState → StepRes
  | [], s => StepRes.ok s
  | ch :: rest, s =>
    match short_char next ch s with
    | StepRes.ok s' => short_cluster next rest s'
    | r => r

/-- The body of the main recognition loop for one token
(src/parser.rs lines 41-112). -/
def processToken (args : List String) (idx : Nat) (tok : String) (s : PState) : StepRes :=
  match findArg s.parser.args tok with
  | some a =>
    match a.typ with
    | ArgType.Word (WordType.Boolean b) =>
      StepRes.ok (setEntries s (updateFirst
        (fun x => { x with typ := ArgType.Word (WordType.Boolean (!b)) }) s.parser.args tok))
    | ArgType.Word (WordType.String_ _) =>
      match args.get? (idx + 1) with
      | some next =>
        if startsDash next then StepRes.ok s
        else StepRes.ok (setEntries s (updateFirst
          (fun x => { x with typ := ArgType.Word (WordType.String_ next), set := true })
          s.parser.args tok))
      | none => StepRes.ok s
    | _ => StepRes.ok s
  | none =>
    match stripDashDash tok with
    | some nm =>
      if nm = "help" then help_exit s
      else if nm = "version" then version_exit s
      else
        match findArg s.parser.args nm with
        | some a =>
          match a.typ with
          | ArgType.Flag b =>
            StepRes.ok (setEntries s (updateFirst
              (fun x => { x with typ := ArgType.Flag (!b), set := true }) s.parser.args nm))
          | ArgType.Option_ _ =>
            match args.get? (idx + 1) with
            | some next =>
              if startsDash next then StepRes.ok s
              else StepRes.ok (setEntries s (updateFirst
                (fun x => { x with typ := ArgType.Option_ next, set := true }) s.parser.args nm))
            | none => StepRes.ok s
          | _ => StepRes.ok s
        | none => unexpected s ("--" ++ nm)
    | none =>
      match stripDash tok with
      | some cs => short_cluster (args.get? (idx + 1)) cs.toList s
      | none => StepRes.ok s

/-- The indexed token walk (`for (idx, arg) in args.iter().enumerate()`). -/
def walkAux (args : List String) : List String → Nat → PState → StepRes
  | [], _, s => StepRes.ok s
  | tok :: rest, idx, s =>
    match processToken args idx tok s with
    | StepRes.ok s' => walkAux args rest (idx + 1) s'
    | r => r

/-- First registered arg with `required && !set`, in registry order. -/
def findViolation : List (String × Arg) → Option Arg
  | [] => none
  | (_, a) :: rest => if a.required && !a.set then some a else findViolation rest

def didntFindMsg (n : String) : String :=
  "Didn't find \"" ++ n ++ "\"\n"

/-- The post-walk required check (src/parser.rs lines 115-120). -/
def requiredCheck (s : PState) : StepRes :=
  match findViolation s.parser.args with
  | some a =>
    StepRes.exited 1 { s with out := s.out ++ [didntFindMsg a.name] ++ print_help s.parser }
  | none => StepRes.ok s

/-- `ArgParser::parse_vec`. -/
def ArgParser.parse_vec (p : ArgParser) (args : List String) : StepRes :=
  if args.length = 0 ∧ p.require_args = true then
    StepRes.exited 1 { parser := p, out := print_help p, err := [] }
  else
    match walkAux args args 0 { parser := p, out := [], err := [] } with
    | StepRes.ok s => requiredCheck s
    | r => r

/-- `ArgParser::get_option`. -/
def ArgParser.get_option (p : ArgParser) (name : String) : Option String :=
  match findArg p.args name with
  | some a =>
    match a.typ with
    | ArgType.Option_ s => some s
    | _ => none
  | none => none

/-- `ArgParser::get_flag`. -/
def ArgParser.get_flag (p : ArgParser) (name : String) : Option Bool :=
  match findArg p.args name with
  | some a =>
    match a.typ with
    | ArgType.Flag b => some b
    | _ => none
  | none => none

/-- `ArgParser::get_word`. -/
def ArgParser.get_word (p : ArgParser) (name : String) : Option WordType :=
  match findArg p.args name with
  | some a =>
    match a.typ with
    | ArgType.Word w => some w
    | _ => none
  | none => none

/-- `ArgParser::new`: empty metadata plus the pre-registered `help`/`version`
flag args. -/
def ArgParser.new (name : String) : ArgParser :=
  { name := name, author := "", version := "", copyright := "", info := "",
    usage := name ++ " [flags] [options]",
    args :=
      [("help", { name := "help", short := 'h', help := "Prints the help dialog",
                  typ := ArgType.Flag false, required := false, set := false }),
       ("version", { name := "version", short := 'v', help := "Prints the version",
                     typ := ArgType.Flag false, required := false, set := false })],
    require_args := false }

/-- Pointwise effect of one short-character scan on a registry entry, used to
describe `applyShort` when it does not exit. -/
def shortTrans (ch : Char) (next : Option String) (a : Arg) : Arg :=
  if a.short = ch then
    match a.typ with
    | ArgType.Flag b => { a with typ := ArgType.Flag (!b), set := true }
    | ArgType.Option_ _ =>
      match next with
      | some nxt =>
        if startsDash nxt then a
        else { a with typ := ArgType.Option_ nxt, set := true }
      | none => a
    | _ => a
  else a

/-- Helper for concrete registries. -/
def mkArg (n : String) (sh : Char) (t : ArgType) (req : Bool := false) : Arg :=
  { name := n, short := sh, help := "", typ := t, required := req, set := false }

/-- Helper for concrete parsers. -/
def mkParser (entries : List (String × Arg)) : ArgParser :=
  { name := "prog", author := "", version := "", copyright := "", info := "",
    usage := "prog [flags] [options]", args := entries, require_args := false }

/-- Exit code of a parse result, `none` when it returned normally. -/
def resCode : StepRes → Option Nat
  | StepRes.ok _ => none
  | StepRes.exited c _ => some c

def resErr : StepRes → List String
  | StepRes.ok s => s.err
  | StepRes.exited _ s => s.err

def resOut : StepRes → List String
  | StepRes.ok s => s.out
  | StepRes.exited _ s => s.out

def resParser : StepRes → ArgParser
  | StepRes.ok s => s.parser
  | StepRes.exited _ s => s.parser

/-- The parse state inside a result, whichever way it ended. -/
def stateOf : StepRes → PState
  | StepRes.ok s => s
  | StepRes.exited _ s => s

/-- Registry for the C1 counterexample: one word-boolean arg. -/
def c1P : ArgParser := mkParser [("w", mkArg "w" 'w' (ArgType.Word (WordType.Boolean false)))]

/-- Registry for the C2 counterexample and witness: one option arg, short `o`. -/
def c2P : ArgParser := mkParser [("opt", mkArg "opt" 'o' (ArgType.Option_ "d"))]

/-- Registry for the C5 counterexample: a required flag, `require_args = false`. -/
def c5P : ArgParser := mkParser [("req", mkArg "req" 'r' (ArgType.Flag false) true)]

/-- Registry for the C9 counterexample: a word-string arg whose value token is
itself a registered word-boolean name. -/
def c9P : ArgParser :=
  mkParser [("aw", mkArg "aw" 'x' (ArgType.Word (WordType.String_ "d"))),
            ("bw", mkArg "bw" 'y' (ArgType.Word (WordType.Boolean false)))]

/-- Registry for C3/C4 witnesses: two flags. -/
def c3P : ArgParser :=
  mkParser [("fl", mkArg "fl" 'f' (ArgType.Flag false)),
            ("gl", mkArg "gl" 'g' (ArgType.Flag true))]

/-- Empty-registry parser with `require_args` set, for the C5 witness. -/
def c5W : ArgParser := { mkParser [] with require_args := true }

/-- The `Arg` value produced by `Arg.new "ab"`. -/
def c10A : Arg :=
  { name := "ab", short := 'a', help := "", typ := ArgType.Unknown,
    required := false, set := false }

/-- Initial parse state over the C9 registry. -/
def c9S0 : PState := { parser := c9P, out := [], err := [] }

/- ------------------------------------------------------------------ -/
/- Registry lemmas                                                     -/
/- ------------------------------------------------------------------ -/

theorem updateFirst_map_fst (f : Arg → Arg) (l : List (String × Arg)) (k : String) :
    (updateFirst f l k).map Prod.fst = l.map Prod.fst := by
  induction l with
  | nil => rfl
  | cons e rest ih =>
    obtain ⟨k', a⟩ := e
    by_cases h : k' = k
    · simp [updateFirst, h]
    · simp [updateFirst, h, ih]

theorem findArg_updateFirst_ne (f : Arg → Arg) (l : List (String × Arg)) (k n : String)
    (h : k ≠ n) : findArg (updateFirst f l k) n = findArg l n := by
  induction l with
  | nil => rfl
  | cons e rest ih =>
    obtain ⟨k', a⟩ := e
    by_cases h1 : k' = k
    · subst h1
      simp [updateFirst, findArg, h]
    · have h' : n ≠ k := fun hh => h hh.symm
      by_cases h2 : k' = n
      · simp [updateFirst, h1, findArg, h2, h']
      · simp [updateFirst, h1, findArg, h2, ih]

theorem findArg_updateFirst_self (f : Arg → Arg) (l : List (String × Arg)) (k : String) :
    findArg (updateFirst f l k) k = (findArg l k).map f := by
  induction l with
  | nil => rfl
  | cons e rest ih =>
    obtain ⟨k', a⟩ := e
    by_cases h : k' = k
    · simp [updateFirst, findArg, h]
    · simp [updateFirst, findArg, h, ih]

theorem findArg_none_iff (l : List (String × Arg)) (n : String) :
    findArg l n = none ↔ n ∉ l.map Prod.fst := by
  induction l with
  | nil => simp [findArg]
  | cons e rest ih =>
    obtain ⟨k, a⟩ := e
    by_cases h : k = n
    · simp [findArg, h]
    · rw [List.map_cons]
      simp [findArg, h, ih, Ne.symm h]

theorem findArg_map_snd (g : Arg → Arg) (l : List (String × Arg)) (n : String) :
    findArg (l.map (fun e => (e.1, g e.2))) n = (findArg l n).map g := by
  induction l with
  | nil => rfl
  | cons e rest ih =>
    obtain ⟨k, a⟩ := e
    by_cases h : k = n
    · simp [findArg, h]
    · simp [findArg, h, ih]

/- ------------------------------------------------------------------ -/
/- applyShort lemmas                                                   -/
/- ------------------------------------------------------------------ -/

theorem shortCons_cont (e : String × Arg) (r : ShortRes) (l : List (String × Arg))
    (h : shortCons e r = ShortRes.cont l) :
    ∃ l₀, r = ShortRes.cont l₀ ∧ l = e :: l₀ := by
  cases r with
  | cont l₀ =>
    simp only [shortCons] at h
    exact ⟨l₀, rfl, (by injection h with h; exact h.symm)⟩
  | ex l₀ nm tok => simp [shortCons] at h

theorem applyShort_cont_map (ch : Char) (next : Option String) :
    ∀ l l', applyShort ch next l = ShortRes.cont l' →
      l' = l.map (fun e => (e.1, shortTrans ch next e.2)) := by
  intro l
  induction l with
  | nil =>
    intro l' h
    simp only [applyShort] at h
    injection h with h
    simp [h.symm]
  | cons e rest ih =>
    obtain ⟨k, a⟩ := e
    intro l' h
    by_cases hsh : a.short = ch
    · simp only [applyShort, hsh, if_true] at h
      cases hty : a.typ with
      | Flag b =>
        rw [hty] at h
        obtain ⟨l₀, hr, hl⟩ := shortCons_cont _ _ _ h
        simp [hl, ih _ hr, shortTrans, hsh, hty]
      | Option_ d =>
        rw [hty] at h
        cases hnx : next with
        | some nxt =>
          rw [hnx] at h
          by_cases hd : startsDash nxt
          · simp [hd] at h
          · simp only [hd, Bool.false_eq_true, if_false] at h
            obtain ⟨l₀, hr, hl⟩ := shortCons_cont _ _ _ h
            rw [← hnx] at hr
            simp [hl, ih _ hr, shortTrans, hsh, hty, hnx, hd]
        | none =>
          rw [hnx] at h
          obtain ⟨l₀, hr, hl⟩ := shortCons_cont _ _ _ h
          rw [← hnx] at hr
          simp [hl, ih _ hr, shortTrans, hsh, hty, hnx]
      | Unknown =>
        rw [hty] at h
        obtain ⟨l₀, hr, hl⟩ := shortCons_cont _ _ _ h
        simp [hl, ih _ hr, shortTrans, hsh, hty]
      | Word w =>
        rw [hty] at h
        obtain ⟨l₀, hr, hl⟩ := shortCons_cont _ _ _ h
        simp [hl, ih _ hr, shortTrans, hsh, hty]
    · simp only [applyShort, hsh, if_false] at h
      obtain ⟨l₀, hr, hl⟩ := shortCons_cont _ _ _ h
      simp [hl, ih _ hr, shortTrans, hsh]

/- ------------------------------------------------------------------ -/
/- String token-shape lemmas                                           -/
/- ------------------------------------------------------------------ -/

theorem toList_append (a b : String) : (a ++ b).toList = a.toList ++ b.toList := by
  cases a; cases b; rfl

theorem mk_toList (s : String) : String.mk s.toList = s := by
  cases s; rfl

theorem toList_dashdash (x : String) : ("--" ++ x).toList = '-' :: '-' :: x.toList := by
  rw [toList_append]; rfl

theorem toList_dashchar (c : Char) : ("-" ++ c.toString).toList = ['-', c] := by
  rw [toList_append]; rfl

theorem stripDashDash_eq (x : String) : stripDashDash ("--" ++ x) = some x := by
  unfold stripDashDash
  rw [toList_dashdash]
  simp [mk_toList]

theorem startsDash_dashdash (x : String) : startsDash ("--" ++ x) = true := by
  unfold startsDash
  rw [toList_dashdash]
  simp

theorem stripDashDash_dashchar (c : Char) (hc : c ≠ '-') :
    stripDashDash ("-" ++ c.toString) = none := by
  unfold stripDashDash
  rw [toList_dashchar]
  simp [hc]

theorem stripDash_dashchar (c : Char) : stripDash ("-" ++ c.toString) = some c.toString := by
  unfold stripDash
  rw [toList_dashchar]
  rfl

theorem startsDash_dashchar (c : Char) : startsDash ("-" ++ c.toString) = true := by
  unfold startsDash
  rw [toList_dashchar]
  simp

theorem stripDashDash_of_not_dash (t : String) (h : startsDash t = false) :
    stripDashDash t = none := by
  unfold startsDash at h
  unfold stripDashDash
  cases ht : t.toList with
  | nil => rfl
  | cons c rest =>
    rw [ht] at h
    simp at h
    cases rest with
    | nil => rfl
    | cons c2 rest2 => simp [h]

theorem stripDash_of_not_dash (t : String) (h : startsDash t = false) :
    stripDash t = none := by
  unfold startsDash at h
  unfold stripDash
  cases ht : t.toList with
  | nil => rfl
  | cons c rest =>
    rw [ht] at h
    simp at h
    simp [h]

/- ------------------------------------------------------------------ -/
/- applyShort: non-exit forms and exit existence                       -/
/- ------------------------------------------------------------------ -/

theorem applyShort_none (ch : Char) (l : List (String × Arg)) :
    applyShort ch none l = ShortRes.cont (l.map (fun e => (e.1, shortTrans ch none e.2))) := by
  induction l with
  | nil => simp [applyShort]
  | cons e rest ih =>
    obtain ⟨k, a⟩ := e
    by_cases hsh : a.short = ch
    · cases hty : a.typ <;> simp [applyShort, hsh, hty, ih, shortCons, shortTrans]
    · simp [applyShort, hsh, ih, shortCons, shortTrans]

theorem applyShort_nondash (ch : Char) (nxt : String) (l : List (String × Arg))
    (hd : startsDash nxt = false) :
    applyShort ch (some nxt) l
      = ShortRes.cont (l.map (fun e => (e.1, shortTrans ch (some nxt) e.2))) := by
  induction l with
  | nil => simp [applyShort]
  | cons e rest ih =>
    obtain ⟨k, a⟩ := e
    by_cases hsh : a.short = ch
    · cases hty : a.typ <;> simp [applyShort, hsh, hty, hd, ih, shortCons, shortTrans]
    · simp [applyShort, hsh, ih, shortCons, shortTrans]

theorem applyShort_ex_of_option (ch : Char) (nxt : String) (l : List (String × Arg))
    (hd : startsDash nxt = true)
    (hex : ∃ e ∈ l, e.2.short = ch ∧ ∃ d, e.2.typ = ArgType.Option_ d) :
    ∃ l' nm, applyShort ch (some nxt) l = ShortRes.ex l' nm nxt := by
  induction l with
  | nil => simp at hex
  | cons e rest ih =>
    obtain ⟨k, a⟩ := e
    by_cases hsh : a.short = ch
    · cases hty : a.typ with
      | Option_ d => exact ⟨(k, a) :: rest, a.name, by simp [applyShort, hsh, hty, hd]⟩
      | Flag b =>
        have hex' : ∃ e ∈ rest, e.2.short = ch ∧ ∃ d, e.2.typ = ArgType.Option_ d := by
          rcases hex with ⟨e', he', hsh', d, hty'⟩
          rcases List.mem_cons.mp he' with he | he
          · rw [he] at hty'; simp at hty'; rw [hty] at hty'; cases hty'
          · exact ⟨e', he, hsh', d, hty'⟩
        obtain ⟨l', nm, hl⟩ := ih hex'
        exact ⟨(k, { a with typ := ArgType.Flag (!b), set := true }) :: l', nm,
          by simp [applyShort, hsh, hty, hl, shortCons]⟩
      | Unknown =>
        have hex' : ∃ e ∈ rest, e.2.short = ch ∧ ∃ d, e.2.typ = ArgType.Option_ d := by
          rcases hex with ⟨e', he', hsh', d, hty'⟩
          rcases List.mem_cons.mp he' with he | he
          · rw [he] at hty'; simp at hty'; rw [hty] at hty'; cases hty'
          · exact ⟨e', he, hsh', d, hty'⟩
        obtain ⟨l', nm, hl⟩ := ih hex'
        exact ⟨(k, a) :: l', nm, by simp [applyShort, hsh, hty, hl, shortCons]⟩
      | Word w =>
        have hex' : ∃ e ∈ rest, e.2.short = ch ∧ ∃ d, e.2.typ = ArgType.Option_ d := by
          rcases hex with ⟨e', he', hsh', d, hty'⟩
          rcases List.mem_cons.mp he' with he | he
          · rw [he] at hty'; simp at hty'; rw [hty] at hty'; cases hty'
          · exact ⟨e', he, hsh', d, hty'⟩
        obtain ⟨l', nm, hl⟩ := ih hex'
        exact ⟨(k, a) :: l', nm, by simp [applyShort, hsh, hty, hl, shortCons]⟩
    · have hex' : ∃ e ∈ rest, e.2.short = ch ∧ ∃ d, e.2.typ = ArgType.Option_ d := by
        rcases hex with ⟨e', he', hsh', d, hty'⟩
        rcases List.mem_cons.mp he' with he | he
        · rw [he] at hsh'; simp at hsh'; exact absurd hsh' hsh
        · exact ⟨e', he, hsh', d, hty'⟩
      obtain ⟨l', nm, hl⟩ := ih hex'
      exact ⟨(k, a) :: l', nm, by simp [applyShort, hsh, hl, shortCons]⟩

/- ------------------------------------------------------------------ -/
/- short_char / short_cluster lemmas                                   -/
/- ------------------------------------------------------------------ -/

theorem map_fst_map_snd (g : Arg → Arg) (l : List (String × Arg)) :
    (l.map (fun e => (e.1, g e.2))).map Prod.fst = l.map Prod.fst := by
  induction l with
  | nil => rfl
  | cons e rest ih => simp [ih]

theorem short_char_ok_inv (next : Option String) (ch : Char) (s s₂ : PState)
    (h : short_char next ch s = StepRes.ok s₂) :
    ch ≠ 'h' ∧ ch ≠ 'v' ∧
      ∃ l', applyShort ch next s.parser.args = ShortRes.cont l' ∧ s₂ = setEntries s l' := by
  by_cases h1 : ch = 'h'
  · simp [short_char, h1, help_exit] at h
  · by_cases h2 : ch = 'v'
    · simp [short_char, h1, h2, version_exit] at h
    · refine ⟨h1, h2, ?_⟩
      cases happ : applyShort ch next s.parser.args with
      | cont l' =>
        simp [short_char, h1, h2, happ] at h
        exact ⟨l', rfl, h.symm⟩
      | ex l' nm tok =>
        simp [short_char, h1, h2, happ] at h

theorem short_char_eval (next : Option String) (ch : Char) (s : PState)
    (l' : List (String × Arg)) (h1 : ch ≠ 'h') (h2 : ch ≠ 'v')
    (happ : applyShort ch next s.parser.args = ShortRes.cont l') :
    short_char next ch s = StepRes.ok (setEntries s l') := by
  simp [short_char, h1, h2, happ]

theorem short_cluster_preserve (next : Option String) (n : String) (a : Arg)
    (hstable : ∀ ch, shortTrans ch next a = a) :
    ∀ cs s s₂, short_cluster next cs s = StepRes.ok s₂ →
      findArg s.parser.args n = some a → findArg s₂.parser.args n = some a := by
  intro cs
  induction cs with
  | nil =>
    intro s s₂ h hf
    simp [short_cluster] at h
    rw [← h]; exact hf
  | cons ch rest ih =>
    intro s s₂ h hf
    cases hc : short_char next ch s with
    | ok s' =>
      simp only [short_cluster, hc] at h
      obtain ⟨_, _, l', happ, hset⟩ := short_char_ok_inv _ _ _ _ hc
      have hmap := applyShort_cont_map _ _ _ _ happ
      have hf' : findArg s'.parser.args n = some a := by
        rw [hset, hmap]
        simp [setEntries, findArg_map_snd, hf, hstable]
      exact ih s' s₂ h hf'
    | exited c st => simp [short_cluster, hc] at h

theorem short_cluster_map_fst (next : Option String) :
    ∀ cs s s₂, short_cluster next cs s = StepRes.ok s₂ →
      s₂.parser.args.map Prod.fst = s.parser.args.map Prod.fst := by
  intro cs
  induction cs with
  | nil =>
    intro s s₂ h
    simp [short_cluster] at h
    rw [← h]
  | cons ch rest ih =>
    intro s s₂ h
    cases hc : short_char next ch s with
    | ok s' =>
      simp only [short_cluster, hc] at h
      obtain ⟨_, _, l', happ, hset⟩ := short_char_ok_inv _ _ _ _ hc
      have hmap := applyShort_cont_map _ _ _ _ happ
      have : s'.parser.args.map Prod.fst = s.parser.args.map Prod.fst := by
        rw [hset, hmap]
        simp [setEntries, map_fst_map_snd]
      rw [ih s' s₂ h, this]
    | exited c st => simp [short_cluster, hc] at h

/- ------------------------------------------------------------------ -/
/- walkAux / requiredCheck / parse_vec plumbing                        -/
/- ------------------------------------------------------------------ -/

theorem toList_charToString (c : Char) : c.toString.toList = [c] := rfl

theorem walkAux_cons_ok (args : List String) (t : String) (rest : List String)
    (idx : Nat) (s s₂ : PState) (h : walkAux args (t :: rest) idx s = StepRes.ok s₂) :
    ∃ s₁, processToken args idx t s = StepRes.ok s₁ ∧
      walkAux args rest (idx + 1) s₁ = StepRes.ok s₂ := by
  cases hp : processToken args idx t s with
  | ok s₁ => exact ⟨s₁, rfl, by simpa [walkAux, hp] using h⟩
  | exited c st => simp [walkAux, hp] at h

theorem walkAux_cons_of (args : List String) (t : String) (rest : List String)
    (idx : Nat) (s s₁ : PState) (hp : processToken args idx t s = StepRes.ok s₁) :
    walkAux args (t :: rest) idx s = walkAux args rest (idx + 1) s₁ := by
  simp [walkAux, hp]

theorem walkAux_cons_exit (args : List String) (t : String) (rest : List String)
    (idx : Nat) (s : PState) (c : Nat) (st : PState)
    (hp : processToken args idx t s = StepRes.exited c st) :
    walkAux args (t :: rest) idx s = StepRes.exited c st := by
  simp [walkAux, hp]

theorem requiredCheck_ok_iff (s s' : PState) :
    requiredCheck s = StepRes.ok s' ↔ findViolation s.parser.args = none ∧ s' = s := by
  cases hv : findViolation s.parser.args <;> simp [requiredCheck, hv, eq_comm]

theorem findViolation_none_iff (l : List (String × Arg)) :
    findViolation l = none ↔ ∀ e ∈ l, ¬(e.2.required = true ∧ e.2.set = false) := by
  induction l with
  | nil => simp [findViolation]
  | cons e rest ih =>
    obtain ⟨k, a⟩ := e
    by_cases hr : (a.required && !a.set) = true
    · have hra : a.required = true ∧ a.set = false := by
        simpa [Bool.and_eq_true] using hr
      have hl : findViolation ((k, a) :: rest) = some a := by simp [findViolation, hr]
      rw [hl]
      constructor
      · intro hfalse; exact (Option.noConfusion hfalse)
      · intro hall; exact absurd hra (hall (k, a) (List.mem_cons_self _ _))
    · have hra : ¬(a.required = true ∧ a.set = false) := by
        intro hc
        exact hr (by simp [hc.1, hc.2])
      simp only [findViolation, hr, if_false, Bool.false_eq_true]
      rw [ih]
      constructor
      · intro hall e' he'
        rcases List.mem_cons.mp he' with h | h
        · rw [h]; exact hra
        · exact hall e' h
      · intro hall e' he'
        exact hall e' (List.mem_cons_of_mem _ he')

theorem findViolation_some_of (l : List (String × Arg)) (e : String × Arg)
    (he : e ∈ l) (hreq : e.2.required = true) (hset : e.2.set = false) :
    ∃ a, findViolation l = some a ∧ a.required = true ∧ a.set = false := by
  induction l with
  | nil => cases he
  | cons e' rest ih =>
    obtain ⟨k, a⟩ := e'
    by_cases hr : (a.required && !a.set) = true
    · have hra : a.required = true ∧ a.set = false := by
        simpa [Bool.and_eq_true] using hr
      exact ⟨a, by simp [findViolation, hr], hra.1, hra.2⟩
    · rcases List.mem_cons.mp he with h | h
      · exfalso
        rw [h] at hreq hset
        apply hr
        rw [Bool.and_eq_true, Bool.not_eq_true']
        exact ⟨hreq, hset⟩
      · obtain ⟨a', ha', hreq', hset'⟩ := ih h
        exact ⟨a', by simp [findViolation, hr, ha'], hreq', hset'⟩

theorem parse_vec_cons (p : ArgParser) (t : String) (rest : List String) :
    ArgParser.parse_vec p (t :: rest) =
      (match walkAux (t :: rest) (t :: rest) 0 { parser := p, out := [], err := [] } with
       | StepRes.ok s => requiredCheck s
       | r => r) := by
  simp [ArgParser.parse_vec]

theorem parse_vec_ok_inv (p : ArgParser) (args : List String) (s' : PState)
    (h : ArgParser.parse_vec p args = StepRes.ok s') :
    walkAux args args 0 { parser := p, out := [], err := [] } = StepRes.ok s' ∧
      findViolation s'.parser.args = none := by
  unfold ArgParser.parse_vec at h
  by_cases hg : args.length = 0 ∧ p.require_args = true
  · simp [hg] at h
  · rw [if_neg hg] at h
    cases hw : walkAux args args 0 { parser := p, out := [], err := [] } with
    | ok s₀ =>
      rw [hw] at h
      obtain ⟨hv, hs⟩ := (requiredCheck_ok_iff _ _).mp h
      subst hs
      exact ⟨rfl, hv⟩
    | exited c st =>
      rw [hw] at h
      cases h

/- ------------------------------------------------------------------ -/
/- processToken: inversion and evaluation lemmas                       -/
/- ------------------------------------------------------------------ -/

theorem processToken_ok_inv (args : List String) (idx : Nat) (t : String) (s s₂ : PState)
    (h : processToken args idx t s = StepRes.ok s₂) :
    (∃ a, findArg s.parser.args t = some a ∧
      ((∃ b, a.typ = ArgType.Word (WordType.Boolean b) ∧
          s₂ = setEntries s (updateFirst
            (fun x => { x with typ := ArgType.Word (WordType.Boolean (!b)) }) s.parser.args t)) ∨
       (∃ str nxt, a.typ = ArgType.Word (WordType.String_ str) ∧
          args.get? (idx + 1) = some nxt ∧ startsDash nxt = false ∧
          s₂ = setEntries s (updateFirst
            (fun x => { x with typ := ArgType.Word (WordType.String_ nxt), set := true })
            s.parser.args t)) ∨
       s₂ = s)) ∨
    (findArg s.parser.args t = none ∧ ∃ nm, stripDashDash t = some nm ∧
      nm ≠ "help" ∧ nm ≠ "version" ∧
      ((∃ a b, findArg s.parser.args nm = some a ∧ a.typ = ArgType.Flag b ∧
          s₂ = setEntries s (updateFirst
            (fun x => { x with typ := ArgType.Flag (!b), set := true }) s.parser.args nm)) ∨
       (∃ a d nxt, findArg s.parser.args nm = some a ∧ a.typ = ArgType.Option_ d ∧
          args.get? (idx + 1) = some nxt ∧ startsDash nxt = false ∧
          s₂ = setEntries s (updateFirst
            (fun x => { x with typ := ArgType.Option_ nxt, set := true }) s.parser.args nm)) ∨
       ((∃ a, findArg s.parser.args nm = some a) ∧ s₂ = s))) ∨
    (findArg s.parser.args t = none ∧ stripDashDash t = none ∧
      ∃ cs, stripDash t = some cs ∧
        short_cluster (args.get? (idx + 1)) cs.toList s = StepRes.ok s₂) ∨
    (findArg s.parser.args t = none ∧ stripDashDash t = none ∧ stripDash t = none ∧ s₂ = s) := by
  unfold processToken at h
  split at h
  · rename_i a hf
    left
    refine ⟨a, hf, ?_⟩
    split at h
    · rename_i b hty
      injection h with h
      exact Or.inl ⟨b, hty, h.symm⟩
    · rename_i str hty
      split at h
      · rename_i nxt hn
        split at h
        · injection h with h
          exact Or.inr (Or.inr h.symm)
        · rename_i hd
          injection h with h
          exact Or.inr (Or.inl ⟨str, nxt, hty, hn, by simpa using hd, h.symm⟩)
      · injection h with h
        exact Or.inr (Or.inr h.symm)
    · injection h with h
      exact Or.inr (Or.inr h.symm)
  · rename_i hf
    split at h
    · rename_i nm hdd
      split at h
      · simp [help_exit] at h
      · rename_i hh
        split at h
        · simp [version_exit] at h
        · rename_i hv
          right; left
          refine ⟨hf, nm, hdd, hh, hv, ?_⟩
          split at h
          · rename_i a hfn
            split at h
            · rename_i b hty
              injection h with h
              exact Or.inl ⟨a, b, hfn, hty, h.symm⟩
            · rename_i d hty
              split at h
              · rename_i nxt hn
                split at h
                · injection h with h
                  exact Or.inr (Or.inr ⟨⟨a, hfn⟩, h.symm⟩)
                · rename_i hd
                  injection h with h
                  exact Or.inr (Or.inl ⟨a, d, nxt, hfn, hty, hn, by simpa using hd, h.symm⟩)
              · injection h with h
                exact Or.inr (Or.inr ⟨⟨a, hfn⟩, h.symm⟩)
            · injection h with h
              exact Or.inr (Or.inr ⟨⟨a, hfn⟩, h.symm⟩)
          · rename_i hfn
            simp [unexpected] at h
    · rename_i hdd
      split at h
      · rename_i cs hsd
        exact Or.inr (Or.inr (Or.inl ⟨hf, hdd, cs, hsd, h⟩))
      · rename_i hsd
        injection h with h
        exact Or.inr (Or.inr (Or.inr ⟨hf, hdd, hsd, h.symm⟩))

theorem processToken_map_fst (args : List String) (idx : Nat) (t : String) (s s₂ : PState)
    (h : processToken args idx t s = StepRes.ok s₂) :
    s₂.parser.args.map Prod.fst = s.parser.args.map Prod.fst := by
  rcases processToken_ok_inv _ _ _ _ _ h with
    ⟨a, hf, hc⟩ | ⟨hf, nm, hdd, hh, hv, hc⟩ | ⟨hf, hdd, cs, hsd, hcl⟩ | ⟨hf, hdd, hsd, hs⟩
  · rcases hc with ⟨b, hty, hs⟩ | ⟨str, nxt, hty, hn, hd, hs⟩ | hs <;>
      rw [hs] <;> simp [setEntries, updateFirst_map_fst]
  · rcases hc with ⟨a, b, hfn, hty, hs⟩ | ⟨a, d, nxt, hfn, hty, hn, hd, hs⟩ | ⟨_, hs⟩ <;>
      rw [hs] <;> simp [setEntries, updateFirst_map_fst]
  · exact short_cluster_map_fst _ _ _ _ hcl
  · rw [hs]

theorem processToken_preserve_word (args : List String) (idx : Nat) (t : String)
    (s s₂ : PState) (n : String) (a : Arg) (w : WordType)
    (h : processToken args idx t s = StepRes.ok s₂) (hne : t ≠ n)
    (hf : findArg s.parser.args n = some a) (hty : a.typ = ArgType.Word w) :
    findArg s₂.parser.args n = some a := by
  rcases processToken_ok_inv _ _ _ _ _ h with
    ⟨a', hf', hc⟩ | ⟨hf', nm, hdd, hh, hv, hc⟩ | ⟨hf', hdd, cs, hsd, hcl⟩ | ⟨hf', hdd, hsd, hs⟩
  · rcases hc with ⟨b, hty', hs⟩ | ⟨str, nxt, hty', hn, hd, hs⟩ | hs <;>
      rw [hs] <;> simp [setEntries, findArg_updateFirst_ne _ _ _ _ hne, hf]
  · rcases hc with ⟨a', b, hfn, hty', hs⟩ | ⟨a', d, nxt, hfn, hty', hn, hd, hs⟩ | ⟨_, hs⟩
    · by_cases hnm : nm = n
      · rw [hnm] at hfn
        rw [hf] at hfn
        injection hfn with hfn
        rw [← hfn] at hty'
        rw [hty] at hty'
        cases hty'
      · rw [hs]; simp [setEntries, findArg_updateFirst_ne _ _ _ _ hnm, hf]
    · by_cases hnm : nm = n
      · rw [hnm] at hfn
        rw [hf] at hfn
        injection hfn with hfn
        rw [← hfn] at hty'
        rw [hty] at hty'
        cases hty'
      · rw [hs]; simp [setEntries, findArg_updateFirst_ne _ _ _ _ hnm, hf]
    · rw [hs]; exact hf
  · refine short_cluster_preserve _ n a ?_ _ _ _ hcl hf
    intro ch
    by_cases hsh : a.short = ch <;> simp [shortTrans, hsh, hty]
  · rw [hs]; exact hf

theorem processToken_preserve_option_nonext (args : List String) (idx : Nat) (t : String)
    (s s₂ : PState) (n : String) (a : Arg) (d : String)
    (h : processToken args idx t s = StepRes.ok s₂) (hnx : args.get? (idx + 1) = none)
    (hf : findArg s.parser.args n = some a) (hty : a.typ = ArgType.Option_ d) :
    findArg s₂.parser.args n = some a := by
  rcases processToken_ok_inv _ _ _ _ _ h with
    ⟨a', hf', hc⟩ | ⟨hf', nm, hdd, hh, hv, hc⟩ | ⟨hf', hdd, cs, hsd, hcl⟩ | ⟨hf', hdd, hsd, hs⟩
  · rcases hc with ⟨b, hty', hs⟩ | ⟨str, nxt, hty', hn, hd, hs⟩ | hs
    · by_cases hne : t = n
      · rw [hne] at hf'
        rw [hf] at hf'
        injection hf' with hf'
        rw [← hf'] at hty'
        rw [hty] at hty'
        cases hty'
      · rw [hs]; simp [setEntries, findArg_updateFirst_ne _ _ _ _ hne, hf]
    · rw [hnx] at hn; cases hn
    · rw [hs]; exact hf
  · rcases hc with ⟨a', b, hfn, hty', hs⟩ | ⟨a', d', nxt, hfn, hty', hn, hd, hs⟩ | ⟨_, hs⟩
    · by_cases hnm : nm = n
      · rw [hnm] at hfn
        rw [hf] at hfn
        injection hfn with hfn
        rw [← hfn] at hty'
        rw [hty] at hty'
        cases hty'
      · rw [hs]; simp [setEntries, findArg_updateFirst_ne _ _ _ _ hnm, hf]
    · rw [hnx] at hn; cases hn
    · rw [hs]; exact hf
  · rw [hnx] at hcl
    refine short_cluster_preserve _ n a ?_ _ _ _ hcl hf
    intro ch
    by_cases hsh : a.short = ch <;> simp [shortTrans, hsh, hty]
  · rw [hs]; exact hf

theorem processToken_word_bool (args : List String) (idx : Nat) (t : String)
    (s : PState) (a : Arg) (b : Bool)
    (hf : findArg s.parser.args t = some a)
    (hty : a.typ = ArgType.Word (WordType.Boolean b)) :
    processToken args idx t s = StepRes.ok (setEntries s (updateFirst
      (fun x => { x with typ := ArgType.Word (WordType.Boolean (!b)) }) s.parser.args t)) := by
  simp [processToken, hf, hty]

theorem processToken_long_flag (args : List String) (idx : Nat) (nm : String)
    (s : PState) (a : Arg) (b : Bool)
    (hnone : findArg s.parser.args ("--" ++ nm) = none)
    (hh : nm ≠ "help") (hv : nm ≠ "version")
    (hfind : findArg s.parser.args nm = some a) (hty : a.typ = ArgType.Flag b) :
    processToken args idx ("--" ++ nm) s = StepRes.ok (setEntries s (updateFirst
      (fun x => { x with typ := ArgType.Flag (!b), set := true }) s.parser.args nm)) := by
  simp [processToken, hnone, stripDashDash_eq, hh, hv, hfind, hty]

theorem processToken_long_option_pick (args : List String) (idx : Nat) (nm : String)
    (s : PState) (a : Arg) (d nxt : String)
    (hnone : findArg s.parser.args ("--" ++ nm) = none)
    (hh : nm ≠ "help") (hv : nm ≠ "version")
    (hfind : findArg s.parser.args nm = some a) (hty : a.typ = ArgType.Option_ d)
    (hn : args.get? (idx + 1) = some nxt) (hd : startsDash nxt = false) :
    processToken args idx ("--" ++ nm) s = StepRes.ok (setEntries s (updateFirst
      (fun x => { x with typ := ArgType.Option_ nxt, set := true }) s.parser.args nm)) := by
  rw [List.get?_eq_getElem?] at hn
  simp [processToken, hnone, stripDashDash_eq, hh, hv, hfind, hty, hn, hd]

theorem processToken_long_option_skip (args : List String) (idx : Nat) (nm : String)
    (s : PState) (a : Arg) (d nxt : String)
    (hnone : findArg s.parser.args ("--" ++ nm) = none)
    (hh : nm ≠ "help") (hv : nm ≠ "version")
    (hfind : findArg s.parser.args nm = some a) (hty : a.typ = ArgType.Option_ d)
    (hn : args.get? (idx + 1) = some nxt) (hd : startsDash nxt = true) :
    processToken args idx ("--" ++ nm) s = StepRes.ok s := by
  rw [List.get?_eq_getElem?] at hn
  simp [processToken, hnone, stripDashDash_eq, hh, hv, hfind, hty, hn, hd]

theorem processToken_long_option_nonext (args : List String) (idx : Nat) (nm : String)
    (s : PState) (a : Arg) (d : String)
    (hnone : findArg s.parser.args ("--" ++ nm) = none)
    (hh : nm ≠ "help") (hv : nm ≠ "version")
    (hfind : findArg s.parser.args nm = some a) (hty : a.typ = ArgType.Option_ d)
    (hn : args.get? (idx + 1) = none) :
    processToken args idx ("--" ++ nm) s = StepRes.ok s := by
  rw [List.get?_eq_getElem?] at hn
  simp [processToken, hnone, stripDashDash_eq, hh, hv, hfind, hty, hn]

theorem processToken_unexpected_eval (args : List String) (idx : Nat) (nm : String)
    (s : PState)
    (hnone : findArg s.parser.args ("--" ++ nm) = none)
    (hh : nm ≠ "help") (hv : nm ≠ "version")
    (hfind : findArg s.parser.args nm = none) :
    processToken args idx ("--" ++ nm) s = unexpected s ("--" ++ nm) := by
  simp [processToken, hnone, stripDashDash_eq, hh, hv, hfind]

theorem processToken_shortchar (args : List String) (idx : Nat) (c : Char) (s : PState)
    (hnone : findArg s.parser.args ("-" ++ c.toString) = none) (hc : c ≠ '-') :
    processToken args idx ("-" ++ c.toString) s = short_char (args.get? (idx + 1)) c s := by
  have h2 := stripDashDash_dashchar c hc
  have h3 := stripDash_dashchar c
  rw [List.get?_eq_getElem?]
  simp only [processToken, hnone, h2, h3, toList_charToString]
  cases hch : short_char args[idx + 1]? c s <;>
    simp [short_cluster, hch]

/- ------------------------------------------------------------------ -/
/- More walk / cluster plumbing                                        -/
/- ------------------------------------------------------------------ -/

theorem walkAux_append (args : List String) :
    ∀ (u v : List String) (idx : Nat) (s : PState),
      walkAux args (u ++ v) idx s =
        (match walkAux args u idx s with
         | StepRes.ok s' => walkAux args v (idx + u.length) s'
         | r => r) := by
  intro u
  induction u with
  | nil => intro v idx s; simp [walkAux]
  | cons t ts ih =>
    intro v idx s
    cases hp : processToken args idx t s with
    | ok s₁ =>
      rw [List.cons_append, walkAux_cons_of args t (ts ++ v) idx s s₁ hp, ih,
        walkAux_cons_of args t ts idx s s₁ hp]
      have harith : idx + 1 + ts.length = idx + (t :: ts).length := by
        simp [List.length_cons]; omega
      rw [harith]
    | exited c st =>
      rw [List.cons_append, walkAux_cons_exit args t (ts ++ v) idx s c st hp,
        walkAux_cons_exit args t ts idx s c st hp]

theorem walkAux_singleton (args : List String) (t : String) (idx : Nat) (s : PState) :
    walkAux args [t] idx s = processToken args idx t s := by
  cases hp : processToken args idx t s with
  | ok s' => simp [walkAux, hp]
  | exited c st => simp [walkAux, hp]

theorem short_cluster_singleton (next : Option String) (x : Char) (s : PState) :
    short_cluster next [x] s = short_char next x s := by
  cases h : short_char next x s <;> simp [short_cluster, h]

theorem findArg_mem (l : List (String × Arg)) (n : String) (a : Arg)
    (h : findArg l n = some a) : (n, a) ∈ l := by
  induction l with
  | nil => cases h
  | cons e rest ih =>
    obtain ⟨k, b⟩ := e
    by_cases hk : k = n
    · subst hk
      simp [findArg] at h
      rw [h]
      exact List.mem_cons_self _ _
    · simp [findArg, hk] at h
      exact List.mem_cons_of_mem _ (ih h)

theorem parity_succ (k : Nat) : decide ((k + 1) % 2 = 1) = !(decide (k % 2 = 1)) := by
  rcases Nat.mod_two_eq_zero_or_one k with h | h <;> simp [Nat.add_mod, h]

theorem bool_xor_not (v q : Bool) : (!v).xor q = v.xor (!q) := by
  cases v <;> cases q <;> rfl

theorem toList_mk (l : List Char) : (String.mk l).toList = l := rfl

theorem stripDashDash_dashlist (x : Char) (tl : List Char) (hx : x ≠ '-') :
    stripDashDash ("-" ++ String.mk (x :: tl)) = none := by
  unfold stripDashDash
  rw [toList_append, toList_mk]
  simp [hx]

theorem stripDash_dashlist (cl : List Char) :
    stripDash ("-" ++ String.mk cl) = some (String.mk cl) := by
  unfold stripDash
  rw [toList_append, toList_mk]
  rfl

theorem processToken_cluster (args : List String) (idx : Nat) (x : Char) (tl : List Char)
    (s : PState)
    (hnone : findArg s.parser.args ("-" ++ String.mk (x :: tl)) = none) (hx : x ≠ '-') :
    processToken args idx ("-" ++ String.mk (x :: tl)) s =
      short_cluster (args.get? (idx + 1)) (x :: tl) s := by
  simp only [processToken, hnone, stripDashDash_dashlist x tl hx, stripDash_dashlist,
    toList_mk, List.get?_eq_getElem?]

/- ------------------------------------------------------------------ -/
/- All-flag registries                                                 -/
/- ------------------------------------------------------------------ -/

theorem applyShort_allFlag (ch : Char) (next : Option String) (l : List (String × Arg))
    (hAll : ∀ e ∈ l, isFlagTyp e.2.typ = true) :
    applyShort ch next l = applyShort ch none l := by
  induction l with
  | nil => rfl
  | cons e rest ih =>
    obtain ⟨k, a⟩ := e
    have hhead : isFlagTyp a.typ = true := hAll (k, a) (List.mem_cons_self _ _)
    have htail : ∀ e ∈ rest, isFlagTyp e.2.typ = true :=
      fun e he => hAll e (List.mem_cons_of_mem _ he)
    cases hty : a.typ with
    | Flag b =>
      by_cases hsh : a.short = ch <;> simp [applyShort, hsh, hty, ih htail]
    | Unknown => rw [hty] at hhead; simp [isFlagTyp] at hhead
    | Option_ d => rw [hty] at hhead; simp [isFlagTyp] at hhead
    | Word w => rw [hty] at hhead; simp [isFlagTyp] at hhead

theorem shortTrans_flagTyp (ch : Char) (next : Option String) (a : Arg)
    (h : isFlagTyp a.typ = true) : isFlagTyp (shortTrans ch next a).typ = true := by
  cases hty : a.typ with
  | Flag b =>
    by_cases hsh : a.short = ch <;> simp [shortTrans, hsh, hty, isFlagTyp]
  | Unknown => rw [hty] at h; simp [isFlagTyp] at h
  | Option_ d => rw [hty] at h; simp [isFlagTyp] at h
  | Word w => rw [hty] at h; simp [isFlagTyp] at h

theorem short_char_allFlag (next : Option String) (ch : Char) (s s₂ : PState)
    (hAll : ∀ e ∈ s.parser.args, isFlagTyp e.2.typ = true)
    (h : short_char next ch s = StepRes.ok s₂) :
    ∀ e ∈ s₂.parser.args, isFlagTyp e.2.typ = true := by
  obtain ⟨_, _, l', happ, hset⟩ := short_char_ok_inv _ _ _ _ h
  have hmap := applyShort_cont_map _ _ _ _ happ
  rw [hset, hmap]
  intro e he
  simp only [setEntries] at he
  obtain ⟨e₀, he₀, hee⟩ := List.mem_map.mp he
  rw [← hee]
  exact shortTrans_flagTyp _ _ _ (hAll e₀ he₀)

theorem short_char_indep (next : Option String) (ch : Char) (s : PState)
    (hAll : ∀ e ∈ s.parser.args, isFlagTyp e.2.typ = true) :
    short_char next ch s = short_char none ch s := by
  simp only [short_char, applyShort_allFlag ch next _ hAll]

/- ------------------------------------------------------------------ -/
/- Claim theorems                                                      -/
/- ------------------------------------------------------------------ -/

/-- Claim C10: `Arg::new` applied to the empty string panics (modelled as
returning `none`, since it takes the name's first character via `unwrap`), and
every successfully constructed `Arg` has a non-empty name, `short` equal to the
name's first character, empty help, `Unknown` kind, `required = false` and
`set = false` (until mutators override them). -/
theorem c10_arg_new :
    Arg.new "" = none ∧
    ∀ (n : String) (a : Arg), Arg.new n = some a →
      n ≠ "" ∧ a.name = n ∧ n.toList = a.short :: n.toList.tail ∧
        a.help = "" ∧ a.typ = ArgType.Unknown ∧ a.required = false ∧ a.set = false := by
  constructor
  · rfl
  · intro n a h
    unfold Arg.new at h
    cases hl : n.toList with
    | nil => rw [hl] at h; cases h
    | cons c rest =>
      rw [hl] at h
      injection h with h
      have hne : n ≠ "" := by
        intro he
        rw [he] at hl
        simp at hl
      subst h
      exact ⟨hne, rfl, rfl, rfl, rfl, rfl, rfl⟩

/-- Witness for C10 at the concrete name "ab". -/
theorem c10_witness :
    ("ab" : String) ≠ "" ∧ c10A.name = "ab" ∧
      ("ab" : String).toList = c10A.short :: ("ab" : String).toList.tail ∧
      c10A.help = "" ∧ c10A.typ = ArgType.Unknown ∧ c10A.required = false ∧
      c10A.set = false :=
  c10_arg_new.2 "ab" c10A rfl

/-- Claim C8 counterexample: with the default registry, parsing `["--help"]`
terminates with exit status 1, not 0 as the claim states. -/
theorem c8_counterexample :
    resCode ((ArgParser.new "prog").parse_vec ["--help"]) = some 1 := by decide

/-- Claim C8 (amended): for every registry without an argument literally named
"--help", parsing `["--help"]` prints the help text and terminates with exit
status 1 (not 0: `help_exit` calls `process::exit(1)`). -/
theorem c8_help_exits_one (p : ArgParser) (hnone : findArg p.args "--help" = none) :
    p.parse_vec ["--help"] =
      StepRes.exited 1 { parser := p, out := print_help p, err := [] } := by
  have hdd : stripDashDash "--help" = some "help" := by
    rw [show ("--help" : String) = "--" ++ "help" from rfl, stripDashDash_eq]
  have hpt : processToken ["--help"] 0 "--help" { parser := p, out := [], err := [] } =
      StepRes.exited 1 { parser := p, out := print_help p, err := [] } := by
    simp [processToken, hnone, hdd, help_exit]
  rw [parse_vec_cons, walkAux_cons_exit _ _ _ _ _ _ _ hpt]

/-- Witness for C8 (amended) on the default registry. -/
theorem c8_witness :
    (ArgParser.new "prog").parse_vec ["--help"] = StepRes.exited 1
      { parser := ArgParser.new "prog", out := print_help (ArgParser.new "prog"),
                                        err := [] } :=
  c8_help_exits_one (ArgParser.new "prog") (by decide)

/-- Claim C5 counterexample: with `require_args = false` but a required flag
registered and unset, the empty vector does not "parse normally and return";
the post-walk required check exits with status 1. -/
theorem c5_counterexample :
    c5P.require_args = false ∧ resCode (c5P.parse_vec []) = some 1 := by decide

/-- Claim C5 (amended): the empty vector with `require_args` true renders help
to stdout and exits 1; with `require_args` false it passes the guard and
returns, provided no registered arg is required-but-unset (otherwise the
required check still exits). -/
theorem c5_empty_guard (p : ArgParser) :
    (p.require_args = true →
      p.parse_vec [] = StepRes.exited 1 { parser := p, out := print_help p, err := [] }) ∧
    (p.require_args = false → findViolation p.args = none →
      p.parse_vec [] = StepRes.ok { parser := p, out := [], err := [] }) := by
  constructor
  · intro hr
    simp [ArgParser.parse_vec, hr]
  · intro hr hv
    simp [ArgParser.parse_vec, hr, walkAux, requiredCheck, hv]

/-- Witness for C5 (amended) at two concrete parsers. -/
theorem c5_witness :
    c5W.parse_vec [] = StepRes.exited 1 { parser := c5W, out := print_help c5W, err := [] } ∧
    (mkParser []).parse_vec [] = StepRes.ok { parser := mkParser [], out := [], err := [] } :=
  ⟨(c5_empty_guard c5W).1 rfl, (c5_empty_guard (mkParser [])).2 rfl rfl⟩

/-- Claim C9 counterexample: in registry `c9P`, the word-string arg "aw" picks
up the following token "bw" as its value, yet "bw" is itself a registered
word-boolean name, so its own iteration toggles that arg: the value token does
NOT fall through leaving all other registered args unchanged. -/
theorem c9_counterexample :
    ArgParser.get_word (resParser (c9P.parse_vec ["aw", "bw"])) "aw"
        = some (WordType.String_ "bw") ∧
    ArgParser.get_word (resParser (c9P.parse_vec ["aw", "bw"])) "bw"
        = some (WordType.Boolean true) ∧
    resCode (c9P.parse_vec ["aw", "bw"]) = none := by decide

/-- Claim C9 (amended): a value token that does not begin with '-' and is not
itself a registered name is still visited on its own loop iteration, matches
no rule, and leaves the entire parse state (hence every registered arg)
unchanged. -/
theorem c9_value_token_falls_through (args : List String) (idx : Nat) (v : String)
    (s : PState) (hd : startsDash v = false) (hf : findArg s.parser.args v = none) :
    processToken args idx v s = StepRes.ok s := by
  simp [processToken, hf, stripDashDash_of_not_dash _ hd, stripDash_of_not_dash _ hd]

/-- Witness for C9 (amended) at a concrete unregistered value token. -/
theorem c9_witness :
    processToken ["aw", "bw", "zzz"] 2 "zzz" c9S0 = StepRes.ok c9S0 :=
  c9_value_token_falls_through ["aw", "bw", "zzz"] 2 "zzz" c9S0 rfl (by decide)

/-- Claim C6 counterexample: an input containing the unregistered long token
"--zzz" can terminate without ever writing the `Unexpected argument` message:
`["--help", "--zzz"]` exits 1 via the help path with empty stderr. -/
theorem c6_counterexample :
    resCode ((ArgParser.new "prog").parse_vec ["--help", "--zzz"]) = some 1 ∧
    resErr ((ArgParser.new "prog").parse_vec ["--help", "--zzz"]) = [] := by decide

/-- Claim C6 (amended): when the walk actually reaches a token `--name` with
`name` unregistered and different from "help"/"version", parse writes
`Unexpected argument: "--name"` to stderr, renders help to stdout, and
terminates with exit status 1. -/
theorem c6_unknown_long (p : ArgParser) (pre rest : List String) (nm : String) (s : PState)
    (hwalk : walkAux (pre ++ ("--" ++ nm) :: rest) pre 0
      { parser := p, out := [], err := [] } = StepRes.ok s)
    (hh : nm ≠ "help") (hv : nm ≠ "version")
    (hlong : findArg s.parser.args ("--" ++ nm) = none)
    (hfind : findArg s.parser.args nm = none) :
    p.parse_vec (pre ++ ("--" ++ nm) :: rest) =
      StepRes.exited 1 { s with err := s.err ++ [unexpectedMsg ("--" ++ nm)],
                                out := s.out ++ print_help s.parser } := by
  have hguard : ¬((pre ++ ("--" ++ nm) :: rest).length = 0 ∧ p.require_args = true) := by
    intro hcon
    have hlen := hcon.1
    rw [List.length_append, List.length_cons] at hlen
    omega
  have hpt : processToken (pre ++ ("--" ++ nm) :: rest) (0 + pre.length) ("--" ++ nm) s =
      StepRes.exited 1 { s with err := s.err ++ [unexpectedMsg ("--" ++ nm)],
                                out := s.out ++ print_help s.parser } := by
    rw [processToken_unexpected_eval _ _ _ _ hlong hh hv hfind]
    rfl
  have hwfull : walkAux (pre ++ ("--" ++ nm) :: rest) (pre ++ ("--" ++ nm) :: rest) 0
      { parser := p, out := [], err := [] } =
      StepRes.exited 1 { s with err := s.err ++ [unexpectedMsg ("--" ++ nm)],
                                out := s.out ++ print_help s.parser } := by
    rw [walkAux_append, hwalk]
    show walkAux (pre ++ ("--" ++ nm) :: rest) (("--" ++ nm) :: rest) (0 + pre.length) s = _
    exact walkAux_cons_exit _ _ _ _ _ _ _ hpt
  unfold ArgParser.parse_vec
  rw [if_neg hguard, hwfull]

/-- Witness for C6 (amended) on the default registry and token "--zzz". -/
theorem c6_witness :
    (ArgParser.new "prog").parse_vec ([] ++ ("--" ++ "zzz") :: []) =
      StepRes.exited 1 { parser := ArgParser.new "prog",
                         out := print_help (ArgParser.new "prog"),
                         err := [unexpectedMsg ("--" ++ "zzz")] } :=
  c6_unknown_long (ArgParser.new "prog") [] [] "zzz"
    { parser := ArgParser.new "prog", out := [], err := [] }
    rfl (by decide) (by decide) (by decide) (by decide)

/-- Claim C7: after the token walk completes, any registered arg with
`required` true and `set` false makes parse print `Didn't find "<name>"`
followed by the help text and exit 1; when every required arg is set, parse
returns the walk state to the caller. -/
theorem c7_required_check (p : ArgParser) (args : List String) (s : PState)
    (hguard : ¬(args.length = 0 ∧ p.require_args = true))
    (hwalk : walkAux args args 0 { parser := p, out := [], err := [] } = StepRes.ok s) :
    ((∃ e ∈ s.parser.args, e.2.required = true ∧ e.2.set = false) →
      ∃ a : Arg, a.required = true ∧ a.set = false ∧
        p.parse_vec args = StepRes.exited 1
          { s with out := s.out ++ [didntFindMsg a.name] ++ print_help s.parser }) ∧
    ((∀ e ∈ s.parser.args, ¬(e.2.required = true ∧ e.2.set = false)) →
      p.parse_vec args = StepRes.ok s) := by
  have hbase : p.parse_vec args =
      (match walkAux args args 0 { parser := p, out := [], err := [] } with
       | StepRes.ok s => requiredCheck s
       | r => r) := by
    unfold ArgParser.parse_vec
    rw [if_neg hguard]
  rw [hwalk] at hbase
  have hbase' : p.parse_vec args = requiredCheck s := hbase
  constructor
  · rintro ⟨e, he, hreq, hset⟩
    obtain ⟨a, ha, hreq', hset'⟩ := findViolation_some_of _ e he hreq hset
    refine ⟨a, hreq', hset', ?_⟩
    rw [hbase']
    simp [requiredCheck, ha]
  · intro hall
    rw [hbase']
    simp [requiredCheck, (findViolation_none_iff _).mpr hall]

/-- Witness for C7 (the all-required-set branch) at a concrete parse. -/
theorem c7_witness :
    c3P.parse_vec ["--fl"] = StepRes.ok (stateOf (c3P.parse_vec ["--fl"])) :=
  (c7_required_check c3P ["--fl"] (stateOf (c3P.parse_vec ["--fl"]))
    (by decide) rfl).2 (by decide)

/-- Claim C1 counterexample: for the word-boolean arg "w" (default false),
parsing `["w"]` toggles the value to true but does NOT mark the `set` bit
(the `WordType::Boolean` branch never calls `arg.set()`), contradicting the
claim that the set bit becomes true. -/
theorem c1_counterexample :
    ArgParser.get_word (resParser (c1P.parse_vec ["w"])) "w"
        = some (WordType.Boolean true) ∧
    (findArg (resParser (c1P.parse_vec ["w"])).args "w").map Arg.set = some false ∧
    resCode (c1P.parse_vec ["w"]) = none := by decide

/-- Claim C2 counterexample: for option arg "opt" with short 'o' and default
"d", parsing `["-o", "-x"]` does not leave the value at its default: the short
option with a dash-leading follower exits the process with status 1 instead of
returning. -/
theorem c2_counterexample :
    resCode (c2P.parse_vec ["-o", "-x"]) = some 1 ∧
    resErr (c2P.parse_vec ["-o", "-x"]) = [unexpectedMsg "-x"] := by decide

theorem walk_preserve_word (args : List String) (n : String) (a : Arg) (w : WordType)
    (hty : a.typ = ArgType.Word w) :
    ∀ (l : List String) (idx : Nat) (s s₂ : PState),
      walkAux args l idx s = StepRes.ok s₂ → n ∉ l →
      findArg s.parser.args n = some a → findArg s₂.parser.args n = some a := by
  intro l
  induction l with
  | nil =>
    intro idx s s₂ h hnin hf
    simp [walkAux] at h
    rw [← h]; exact hf
  | cons t ts ih =>
    intro idx s s₂ h hnin hf
    obtain ⟨s₁, hp, hw⟩ := walkAux_cons_ok _ _ _ _ _ _ h
    have hne : t ≠ n := by
      intro he; exact hnin (he ▸ List.mem_cons_self _ _)
    have hf₁ := processToken_preserve_word _ _ _ _ _ _ _ _ hp hne hf hty
    exact ih (idx + 1) s₁ s₂ hw (fun hm => hnin (List.mem_cons_of_mem _ hm)) hf₁

/-- Claim C1 (amended): for every parser with a registered arg of kind
Word(Boolean(b)), a completed parse of a token vector containing exactly one
token equal to that arg's name toggles its value to Boolean(!b); the `set` bit
is left unchanged (the Word-Boolean branch never calls `arg.set()`). -/
theorem c1_word_boolean (p : ArgParser) (n : String) (a : Arg) (b : Bool)
    (l1 l2 : List String) (s' : PState)
    (hf : findArg p.args n = some a) (hty : a.typ = ArgType.Word (WordType.Boolean b))
    (h1 : n ∉ l1) (h2 : n ∉ l2)
    (hok : p.parse_vec (l1 ++ n :: l2) = StepRes.ok s') :
    (findArg s'.parser.args n).map Arg.typ = some (ArgType.Word (WordType.Boolean (!b))) ∧
    (findArg s'.parser.args n).map Arg.set = some a.set := by
  obtain ⟨hwalk, _⟩ := parse_vec_ok_inv _ _ _ hok
  rw [walkAux_append] at hwalk
  cases hw1 : walkAux (l1 ++ n :: l2) l1 0 { parser := p, out := [], err := [] } with
  | exited c st =>
    rw [hw1] at hwalk
    simp at hwalk
  | ok sMid =>
    rw [hw1] at hwalk
    have hwalk2 : walkAux (l1 ++ n :: l2) (n :: l2) (0 + l1.length) sMid
        = StepRes.ok s' := hwalk
    have hfMid : findArg sMid.parser.args n = some a :=
      walk_preserve_word _ n a _ hty l1 0 _ _ hw1 h1 hf
    obtain ⟨s₁, hp, hw2⟩ := walkAux_cons_ok _ _ _ _ _ _ hwalk2
    have hstep := processToken_word_bool (l1 ++ n :: l2) (0 + l1.length) n sMid a b hfMid hty
    rw [hstep] at hp
    injection hp with hp
    have hf₁ : findArg s₁.parser.args n =
        some { a with typ := ArgType.Word (WordType.Boolean (!b)) } := by
      rw [← hp]
      simp [setEntries, findArg_updateFirst_self, hfMid]
    have hfinal := walk_preserve_word _ n _ (WordType.Boolean (!b)) rfl l2
      (0 + l1.length + 1) _ _ hw2 h2 hf₁
    constructor <;> simp [hfinal]

/-- Witness for C1 (amended) at the concrete registry `c1P` and input `["w"]`. -/
theorem c1_witness :
    (findArg (stateOf (c1P.parse_vec ([] ++ "w" :: []))).parser.args "w").map Arg.typ
        = some (ArgType.Word (WordType.Boolean (!false))) ∧
    (findArg (stateOf (c1P.parse_vec ([] ++ "w" :: []))).parser.args "w").map Arg.set
        = some (mkArg "w" 'w' (ArgType.Word (WordType.Boolean false))).set :=
  c1_word_boolean c1P "w" (mkArg "w" 'w' (ArgType.Word (WordType.Boolean false))) false
    [] [] (stateOf (c1P.parse_vec ([] ++ "w" :: []))) rfl rfl
    (List.not_mem_nil _) (List.not_mem_nil _) rfl

theorem walk_flag_toggle (argsAll : List String) (n : String) (sc : Char)
    (hh : n ≠ "help") (hv : n ≠ "version") (hcd : sc ≠ '-') :
    ∀ (l : List String) (idx : Nat) (s s₂ : PState) (a : Arg) (v : Bool),
      (∀ t ∈ l, t = "--" ++ n ∨ t = "-" ++ sc.toString) →
      walkAux argsAll l idx s = StepRes.ok s₂ →
      findArg s.parser.args n = some a → a.typ = ArgType.Flag v → a.short = sc →
      findArg s.parser.args ("--" ++ n) = none →
      findArg s.parser.args ("-" ++ sc.toString) = none →
      ∃ a₂, findArg s₂.parser.args n = some a₂ ∧
        a₂.typ = ArgType.Flag (v.xor (decide (l.length % 2 = 1))) ∧ a₂.short = sc := by
  intro l
  induction l with
  | nil =>
    intro idx s s₂ a v htok h hf hty hsc hnl hns
    simp [walkAux] at h
    rw [← h]
    exact ⟨a, hf, by simp [hty], hsc⟩
  | cons t ts ih =>
    intro idx s s₂ a v htok h hf hty hsc hnl hns
    obtain ⟨s₁, hp, hw⟩ := walkAux_cons_ok _ _ _ _ _ _ h
    have hkeys := processToken_map_fst _ _ _ _ _ hp
    have hnl₁ : findArg s₁.parser.args ("--" ++ n) = none := by
      rw [findArg_none_iff] at hnl ⊢
      rw [hkeys]; exact hnl
    have hns₁ : findArg s₁.parser.args ("-" ++ sc.toString) = none := by
      rw [findArg_none_iff] at hns ⊢
      rw [hkeys]; exact hns
    have htok' : ∀ t' ∈ ts, t' = "--" ++ n ∨ t' = "-" ++ sc.toString :=
      fun t' ht' => htok t' (List.mem_cons_of_mem _ ht')
    have hstep : ∃ a₁, findArg s₁.parser.args n = some a₁ ∧
        a₁.typ = ArgType.Flag (!v) ∧ a₁.short = sc := by
      rcases htok t (List.mem_cons_self _ _) with hL | hS
      · subst hL
        rw [processToken_long_flag argsAll idx n s a v hnl hh hv hf hty] at hp
        injection hp with hp
        refine ⟨{ a with typ := ArgType.Flag (!v), set := true }, ?_, rfl, hsc⟩
        rw [← hp]
        simp [setEntries, findArg_updateFirst_self, hf]
      · subst hS
        rw [processToken_shortchar argsAll idx sc s hns hcd] at hp
        obtain ⟨_, _, l', happ, hset⟩ := short_char_ok_inv _ _ _ _ hp
        have hmap := applyShort_cont_map _ _ _ _ happ
        refine ⟨shortTrans sc (argsAll.get? (idx + 1)) a, ?_, ?_, ?_⟩
        · rw [hset, hmap]
          simp [setEntries, findArg_map_snd, hf]
        · simp [shortTrans, hsc, hty]
        · simp [shortTrans, hsc, hty]
    obtain ⟨a₁, hf₁, hty₁, hsc₁⟩ := hstep
    obtain ⟨a₂, hf₂, hty₂, hsc₂⟩ := ih (idx + 1) s₁ s₂ a₁ (!v) htok' hw hf₁ hty₁ hsc₁ hnl₁ hns₁
    refine ⟨a₂, hf₂, ?_, hsc₂⟩
    rw [hty₂, List.length_cons, parity_succ, ← bool_xor_not]

/-- Claim C3: for a registered Flag(d) arg with short s, an input consisting of
exactly k observation tokens (each `--name` or `-s`) leaves `get_flag`
returning d XOR (k mod 2 == 1), whenever the parse returns. -/
theorem c3_flag_parity (p : ArgParser) (n : String) (a : Arg) (d : Bool) (k : Nat)
    (args : List String) (s' : PState)
    (hf : findArg p.args n = some a) (hty : a.typ = ArgType.Flag d)
    (hh : n ≠ "help") (hv : n ≠ "version") (hsd : a.short ≠ '-')
    (hlong : findArg p.args ("--" ++ n) = none)
    (hshort : findArg p.args ("-" ++ a.short.toString) = none)
    (htok : ∀ t ∈ args, t = "--" ++ n ∨ t = "-" ++ a.short.toString)
    (hk : args.length = k)
    (hok : p.parse_vec args = StepRes.ok s') :
    ArgParser.get_flag s'.parser n = some (d.xor (decide (k % 2 = 1))) := by
  obtain ⟨hwalk, _⟩ := parse_vec_ok_inv _ _ _ hok
  obtain ⟨a₂, hf₂, hty₂, _⟩ := walk_flag_toggle args n a.short hh hv hsd args 0
    _ _ a d htok hwalk hf hty rfl hlong hshort
  rw [← hk]
  simp [ArgParser.get_flag, hf₂, hty₂]

/-- Witness for C3 at registry `c3P`, flag "fl" (short 'f'), observed twice. -/
theorem c3_witness :
    ArgParser.get_flag (stateOf (c3P.parse_vec ["--fl", "-f"])).parser "fl"
      = some (Bool.xor false (decide (2 % 2 = 1))) :=
  c3_flag_parity c3P "fl" (mkArg "fl" 'f' (ArgType.Flag false)) false 2 ["--fl", "-f"]
    (stateOf (c3P.parse_vec ["--fl", "-f"])) rfl rfl (by decide) (by decide)
    (by decide) (by decide) (by decide) (by decide) rfl rfl

/-- Claim C2 (amended): for a registered Option_ arg with default d,
`--name V` and `-s V` set the queried value to V and mark `set` when V does
not start with '-'; when the follower is absent the value remains d in both
forms; when the follower starts with '-' the value remains d for `--name`,
but for `-s` the parser emits `Unexpected argument: "<next>"` to stderr and
terminates with exit status 1 instead of returning. -/
theorem c2_option (p : ArgParser) (n : String) (a : Arg) (d V W : String)
    (s1 s2 s3 s4 s5 : PState)
    (hf : findArg p.args n = some a) (hty : a.typ = ArgType.Option_ d)
    (hh : n ≠ "help") (hv : n ≠ "version")
    (hlong : findArg p.args ("--" ++ n) = none)
    (hshort : findArg p.args ("-" ++ a.short.toString) = none)
    (hsh : a.short ≠ 'h') (hsv : a.short ≠ 'v') (hsd : a.short ≠ '-')
    (hV : startsDash V = false) (hW : startsDash W = true) :
    (p.parse_vec ["--" ++ n, V] = StepRes.ok s1 →
      ArgParser.get_option s1.parser n = some V ∧
      (findArg s1.parser.args n).map Arg.set = some true) ∧
    (p.parse_vec ["-" ++ a.short.toString, V] = StepRes.ok s2 →
      ArgParser.get_option s2.parser n = some V ∧
      (findArg s2.parser.args n).map Arg.set = some true) ∧
    (p.parse_vec ["--" ++ n, W] = StepRes.ok s3 →
      ArgParser.get_option s3.parser n = some d) ∧
    (p.parse_vec ["--" ++ n] = StepRes.ok s4 →
      ArgParser.get_option s4.parser n = some d) ∧
    (p.parse_vec ["-" ++ a.short.toString] = StepRes.ok s5 →
      ArgParser.get_option s5.parser n = some d) ∧
    (resCode (p.parse_vec ["-" ++ a.short.toString, W]) = some 1 ∧
      unexpectedMsg W ∈ resErr (p.parse_vec ["-" ++ a.short.toString, W])) := by
  refine ⟨?_, ?_, ?_, ?_, ?_, ?_⟩
  · intro hok
    obtain ⟨hwalk, _⟩ := parse_vec_ok_inv _ _ _ hok
    obtain ⟨s₁, hp, hw⟩ := walkAux_cons_ok _ _ _ _ _ _ hwalk
    rw [processToken_long_option_pick (["--" ++ n, V]) 0 n
      { parser := p, out := [], err := [] } a d V hlong hh hv hf hty rfl hV] at hp
    injection hp with hp
    have hf₁ : findArg s₁.parser.args n
        = some { a with typ := ArgType.Option_ V, set := true } := by
      rw [← hp]; simp [setEntries, findArg_updateFirst_self, hf]
    obtain ⟨s₂', hp2, hw2⟩ := walkAux_cons_ok _ _ _ _ _ _ hw
    have hf₂ := processToken_preserve_option_nonext _ _ _ _ _ _ _ _ hp2 rfl hf₁ rfl
    simp [walkAux] at hw2
    rw [← hw2]
    exact ⟨by simp [ArgParser.get_option, hf₂], by simp [hf₂]⟩
  · intro hok
    obtain ⟨hwalk, _⟩ := parse_vec_ok_inv _ _ _ hok
    obtain ⟨s₁, hp, hw⟩ := walkAux_cons_ok _ _ _ _ _ _ hwalk
    rw [processToken_shortchar _ 0 a.short _ hshort hsd] at hp
    rw [show (["-" ++ a.short.toString, V] : List String).get? (0 + 1) = some V from rfl] at hp
    rw [short_char_eval (some V) a.short _ _ hsh hsv
      (applyShort_nondash a.short V _ hV)] at hp
    injection hp with hp
    have hf₁ : findArg s₁.parser.args n = some (shortTrans a.short (some V) a) := by
      rw [← hp]; simp [setEntries, findArg_map_snd, hf]
    have hf₁' : findArg s₁.parser.args n
        = some { a with typ := ArgType.Option_ V, set := true } := by
      rw [hf₁]; simp [shortTrans, hty, hV]
    obtain ⟨s₂', hp2, hw2⟩ := walkAux_cons_ok _ _ _ _ _ _ hw
    have hf₂ := processToken_preserve_option_nonext _ _ _ _ _ _ _ _ hp2 rfl hf₁' rfl
    simp [walkAux] at hw2
    rw [← hw2]
    exact ⟨by simp [ArgParser.get_option, hf₂], by simp [hf₂]⟩
  · intro hok
    obtain ⟨hwalk, _⟩ := parse_vec_ok_inv _ _ _ hok
    obtain ⟨s₁, hp, hw⟩ := walkAux_cons_ok _ _ _ _ _ _ hwalk
    rw [processToken_long_option_skip (["--" ++ n, W]) 0 n
      { parser := p, out := [], err := [] } a d W hlong hh hv hf hty rfl hW] at hp
    injection hp with hp
    have hf₁ : findArg s₁.parser.args n = some a := by rw [← hp]; exact hf
    obtain ⟨s₂', hp2, hw2⟩ := walkAux_cons_ok _ _ _ _ _ _ hw
    have hf₂ := processToken_preserve_option_nonext _ _ _ _ _ _ _ _ hp2 rfl hf₁ hty
    simp [walkAux] at hw2
    rw [← hw2]
    simp [ArgParser.get_option, hf₂, hty]
  · intro hok
    obtain ⟨hwalk, _⟩ := parse_vec_ok_inv _ _ _ hok
    obtain ⟨s₁, hp, hw⟩ := walkAux_cons_ok _ _ _ _ _ _ hwalk
    rw [processToken_long_option_nonext (["--" ++ n]) 0 n
      { parser := p, out := [], err := [] } a d hlong hh hv hf hty rfl] at hp
    injection hp with hp
    simp [walkAux] at hw
    rw [← hw, ← hp]
    simp [ArgParser.get_option, hf, hty]
  · intro hok
    obtain ⟨hwalk, _⟩ := parse_vec_ok_inv _ _ _ hok
    obtain ⟨s₁, hp, hw⟩ := walkAux_cons_ok _ _ _ _ _ _ hwalk
    rw [processToken_shortchar _ 0 a.short _ hshort hsd] at hp
    rw [show (["-" ++ a.short.toString] : List String).get? (0 + 1) = none from rfl] at hp
    rw [short_char_eval none a.short _ _ hsh hsv (applyShort_none a.short _)] at hp
    injection hp with hp
    have hf₁ : findArg s₁.parser.args n = some (shortTrans a.short none a) := by
      rw [← hp]; simp [setEntries, findArg_map_snd, hf]
    have hf₁' : findArg s₁.parser.args n = some a := by
      rw [hf₁]; simp [shortTrans, hty]
    simp [walkAux] at hw
    rw [← hw]
    simp [ArgParser.get_option, hf₁', hty]
  · have hex : ∃ e ∈ p.args, e.2.short = a.short ∧ ∃ dd, e.2.typ = ArgType.Option_ dd :=
      ⟨(n, a), findArg_mem _ _ _ hf, rfl, d, hty⟩
    obtain ⟨l', nm, happ⟩ := applyShort_ex_of_option a.short W p.args hW hex
    have hpt : processToken ["-" ++ a.short.toString, W] 0 ("-" ++ a.short.toString)
        { parser := p, out := [], err := [] } = StepRes.exited 1
        { parser := { p with args := l' },
          out := [nm] ++ print_help { p with args := l' },
          err := [unexpectedMsg W] } := by
      rw [processToken_shortchar _ 0 a.short _ hshort hsd]
      rw [show (["-" ++ a.short.toString, W] : List String).get? (0 + 1) = some W from rfl]
      simp [short_char, hsh, hsv, happ, setEntries]
    have hparse : p.parse_vec ["-" ++ a.short.toString, W] = StepRes.exited 1
        { parser := { p with args := l' },
          out := [nm] ++ print_help { p with args := l' },
          err := [unexpectedMsg W] } := by
      rw [parse_vec_cons, walkAux_cons_exit _ _ _ _ _ _ _ hpt]
    rw [hparse]
    exact ⟨rfl, by simp [resErr]⟩

/-- Witness for C2 (amended) at registry `c2P`, option "opt" (short 'o'),
value "val" and dash-follower "-x". -/
theorem c2_witness :
    (ArgParser.get_option (stateOf (c2P.parse_vec ["--" ++ "opt", "val"])).parser "opt"
        = some "val" ∧
      (findArg (stateOf (c2P.parse_vec ["--" ++ "opt", "val"])).parser.args "opt").map Arg.set
        = some true) ∧
    (ArgParser.get_option (stateOf (c2P.parse_vec ["-" ++ ('o').toString, "val"])).parser "opt"
        = some "val" ∧
      (findArg (stateOf (c2P.parse_vec ["-" ++ ('o').toString, "val"])).parser.args "opt").map Arg.set
        = some true) ∧
    ArgParser.get_option (stateOf (c2P.parse_vec ["--" ++ "opt", "-x"])).parser "opt" = some "d" ∧
    ArgParser.get_option (stateOf (c2P.parse_vec ["--" ++ "opt"])).parser "opt" = some "d" ∧
    ArgParser.get_option (stateOf (c2P.parse_vec ["-" ++ ('o').toString])).parser "opt" = some "d" ∧
    (resCode (c2P.parse_vec ["-" ++ ('o').toString, "-x"]) = some 1 ∧
      unexpectedMsg "-x" ∈ resErr (c2P.parse_vec ["-" ++ ('o').toString, "-x"])) := by
  have T := c2_option c2P "opt" (mkArg "opt" 'o' (ArgType.Option_ "d")) "d" "val" "-x"
    (stateOf (c2P.parse_vec ["--" ++ "opt", "val"]))
    (stateOf (c2P.parse_vec ["-" ++ ('o').toString, "val"]))
    (stateOf (c2P.parse_vec ["--" ++ "opt", "-x"]))
    (stateOf (c2P.parse_vec ["--" ++ "opt"]))
    (stateOf (c2P.parse_vec ["-" ++ ('o').toString]))
    rfl rfl (by decide) (by decide) (by decide) (by decide) (by decide) (by decide)
    (by decide) rfl rfl
  exact ⟨T.1 rfl, T.2.1 rfl, T.2.2.1 rfl, T.2.2.2.1 rfl, T.2.2.2.2.1 rfl, T.2.2.2.2.2⟩

/-- Claim C4: over a registry consisting only of flag-kind args, parsing the
single cluster token `-abc` produces exactly the same result (hence the same
final state of every registered flag) as parsing the three separate tokens
`-a -b -c`. The characters must not be '-' (else the token shape changes),
and none of the four token spellings may itself be a registered name. -/
theorem c4_cluster_equiv (p : ArgParser) (a b c : Char)
    (hAll : ∀ e ∈ p.args, isFlagTyp e.2.typ = true)
    (ha : a ≠ '-') (hb : b ≠ '-') (hc : c ≠ '-')
    (h1 : findArg p.args ("-" ++ String.mk [a, b, c]) = none)
    (h2 : findArg p.args ("-" ++ a.toString) = none)
    (h3 : findArg p.args ("-" ++ b.toString) = none)
    (h4 : findArg p.args ("-" ++ c.toString) = none) :
    p.parse_vec ["-" ++ String.mk [a, b, c]]
      = p.parse_vec ["-" ++ a.toString, "-" ++ b.toString, "-" ++ c.toString] ∧
    ∀ (n : String) (t1 t2 : PState),
      p.parse_vec ["-" ++ String.mk [a, b, c]] = StepRes.ok t1 →
      p.parse_vec ["-" ++ a.toString, "-" ++ b.toString, "-" ++ c.toString] = StepRes.ok t2 →
      ArgParser.get_flag t1.parser n = ArgParser.get_flag t2.parser n := by
  have hwL : walkAux ["-" ++ String.mk [a, b, c]] ["-" ++ String.mk [a, b, c]] 0
      { parser := p, out := [], err := [] }
      = short_cluster none [a, b, c] { parser := p, out := [], err := [] } := by
    rw [walkAux_singleton]
    rw [processToken_cluster ["-" ++ String.mk [a, b, c]] 0 a [b, c]
      { parser := p, out := [], err := [] } h1 ha]
    rw [show (["-" ++ String.mk [a, b, c]] : List String).get? (0 + 1) = none from rfl]
  have hstep1 : processToken ["-" ++ a.toString, "-" ++ b.toString, "-" ++ c.toString] 0
      ("-" ++ a.toString) { parser := p, out := [], err := [] }
      = short_char none a { parser := p, out := [], err := [] } := by
    rw [processToken_shortchar _ 0 a _ h2 ha]
    rw [show (["-" ++ a.toString, "-" ++ b.toString, "-" ++ c.toString] : List String).get?
      (0 + 1) = some ("-" ++ b.toString) from rfl]
    exact short_char_indep _ a _ hAll
  cases hr1 : short_char none a { parser := p, out := [], err := [] } with
  | exited c1 st1 =>
    have hL : p.parse_vec ["-" ++ String.mk [a, b, c]] = StepRes.exited c1 st1 := by
      rw [parse_vec_cons, show walkAux ["-" ++ String.mk [a, b, c]]
        ["-" ++ String.mk [a, b, c]] 0 { parser := p, out := [], err := [] }
        = StepRes.exited c1 st1 from by rw [hwL]; simp [short_cluster, hr1]]
    have hR : p.parse_vec ["-" ++ a.toString, "-" ++ b.toString, "-" ++ c.toString]
        = StepRes.exited c1 st1 := by
      rw [parse_vec_cons, walkAux_cons_exit _ _ _ _ _ _ _ (by rw [hstep1, hr1])]
    refine ⟨by rw [hL, hR], ?_⟩
    intro n t1 t2 e1 e2
    rw [hL] at e1
    cases e1
  | ok s1 =>
    have hA1 : ∀ e ∈ s1.parser.args, isFlagTyp e.2.typ = true :=
      short_char_allFlag none a _ s1 hAll hr1
    have hk1 : s1.parser.args.map Prod.fst = p.args.map Prod.fst := by
      obtain ⟨_, _, l', happ, hset⟩ := short_char_ok_inv _ _ _ _ hr1
      rw [hset, applyShort_cont_map _ _ _ _ happ]
      simp [setEntries, map_fst_map_snd]
    have h3₁ : findArg s1.parser.args ("-" ++ b.toString) = none := by
      rw [findArg_none_iff] at h3 ⊢; rw [hk1]; exact h3
    have h4₁ : findArg s1.parser.args ("-" ++ c.toString) = none := by
      rw [findArg_none_iff] at h4 ⊢; rw [hk1]; exact h4
    have hstep2 : processToken ["-" ++ a.toString, "-" ++ b.toString, "-" ++ c.toString]
        (0 + 1) ("-" ++ b.toString) s1 = short_char none b s1 := by
      rw [processToken_shortchar _ (0 + 1) b s1 h3₁ hb]
      rw [show (["-" ++ a.toString, "-" ++ b.toString, "-" ++ c.toString] : List String).get?
        (0 + 1 + 1) = some ("-" ++ c.toString) from rfl]
      exact short_char_indep _ b s1 hA1
    cases hr2 : short_char none b s1 with
    | exited c2 st2 =>
      have hL : p.parse_vec ["-" ++ String.mk [a, b, c]] = StepRes.exited c2 st2 := by
        rw [parse_vec_cons, show walkAux ["-" ++ String.mk [a, b, c]]
          ["-" ++ String.mk [a, b, c]] 0 { parser := p, out := [], err := [] }
          = StepRes.exited c2 st2 from by rw [hwL]; simp [short_cluster, hr1, hr2]]
      have hR : p.parse_vec ["-" ++ a.toString, "-" ++ b.toString, "-" ++ c.toString]
          = StepRes.exited c2 st2 := by
        rw [parse_vec_cons, walkAux_cons_of _ _ _ _ _ _ (by rw [hstep1, hr1]),
          walkAux_cons_exit _ _ _ _ _ _ _ (by rw [hstep2, hr2])]
      refine ⟨by rw [hL, hR], ?_⟩
      intro n t1 t2 e1 e2
      rw [hL] at e1
      cases e1
    | ok s2 =>
      have hA2 : ∀ e ∈ s2.parser.args, isFlagTyp e.2.typ = true :=
        short_char_allFlag none b s1 s2 hA1 hr2
      have hk2 : s2.parser.args.map Prod.fst = s1.parser.args.map Prod.fst := by
        obtain ⟨_, _, l', happ, hset⟩ := short_char_ok_inv _ _ _ _ hr2
        rw [hset, applyShort_cont_map _ _ _ _ happ]
        simp [setEntries, map_fst_map_snd]
      have h4₂ : findArg s2.parser.args ("-" ++ c.toString) = none := by
        rw [findArg_none_iff] at h4₁ ⊢; rw [hk2]; exact h4₁
      have hstep3 : processToken ["-" ++ a.toString, "-" ++ b.toString, "-" ++ c.toString]
          (0 + 1 + 1) ("-" ++ c.toString) s2 = short_char none c s2 := by
        rw [processToken_shortchar _ (0 + 1 + 1) c s2 h4₂ hc]
        rw [show (["-" ++ a.toString, "-" ++ b.toString, "-" ++ c.toString] : List String).get?
          (0 + 1 + 1 + 1) = none from rfl]
      cases hr3 : short_char none c s2 with
      | exited c3 st3 =>
        have hL : p.parse_vec ["-" ++ String.mk [a, b, c]] = StepRes.exited c3 st3 := by
          rw [parse_vec_cons, show walkAux ["-" ++ String.mk [a, b, c]]
            ["-" ++ String.mk [a, b, c]] 0 { parser := p, out := [], err := [] }
            = StepRes.exited c3 st3 from by rw [hwL]; simp [short_cluster, hr1, hr2, hr3]]
        have hR : p.parse_vec ["-" ++ a.toString, "-" ++ b.toString, "-" ++ c.toString]
            = StepRes.exited c3 st3 := by
          rw [parse_vec_cons, walkAux_cons_of _ _ _ _ _ _ (by rw [hstep1, hr1]),
            walkAux_cons_of _ _ _ _ _ _ (by rw [hstep2, hr2]),
            walkAux_singleton, hstep3, hr3]
        refine ⟨by rw [hL, hR], ?_⟩
        intro n t1 t2 e1 e2
        rw [hL] at e1
        cases e1
      | ok s3 =>
        have hLp : p.parse_vec ["-" ++ String.mk [a, b, c]] = requiredCheck s3 := by
          rw [parse_vec_cons, show walkAux ["-" ++ String.mk [a, b, c]]
            ["-" ++ String.mk [a, b, c]] 0 { parser := p, out := [], err := [] }
            = StepRes.ok s3 from by rw [hwL]; simp [short_cluster, hr1, hr2, hr3]]
        have hRp : p.parse_vec ["-" ++ a.toString, "-" ++ b.toString, "-" ++ c.toString]
            = requiredCheck s3 := by
          rw [parse_vec_cons, walkAux_cons_of _ _ _ _ _ _ (by rw [hstep1, hr1]),
            walkAux_cons_of _ _ _ _ _ _ (by rw [hstep2, hr2]),
            walkAux_singleton, hstep3, hr3]
        refine ⟨by rw [hLp, hRp], ?_⟩
        intro n t1 t2 e1 e2
        rw [hLp] at e1
        rw [hRp] at e2
        rw [e1] at e2
        injection e2 with e2
        rw [e2]

/-- Witness for C4 at registry `c3P` (flags with shorts 'f' and 'g') and the
cluster `-fgz`. -/
theorem c4_witness :
    c3P.parse_vec ["-" ++ String.mk ['f', 'g', 'z']]
      = c3P.parse_vec ["-" ++ ('f').toString, "-" ++ ('g').toString, "-" ++ ('z').toString] :=
  (c4_cluster_equiv c3P 'f' 'g' 'z' (by decide) (by decide) (by decide) (by decide)
    (by decide) (by decide) (by decide) (by decide)).1

end Rargs
